import Mathlib

/-!
Shallow embedding of `src/ctftime.py` (CTF-time scraper bot): the data model
(`CTFEvent`), the fetcher (`fetch_page`), the HTML-row parser (`parse_events`),
the date-resolution filter (`filter_upcoming_week_events`) including a faithful
model of the Python regular expression
`(\d{1,2})\s+(\w+)\.?,?\s*(?:(\d{4}),?)?\s*(\d{1,2}:\d{2})` under `re.search`
backtracking semantics, and the Discord notifier's field rendering
(`notification_fields`).  Character classes are modelled at ASCII granularity
(the scraped site data is ASCII in the relevant positions).
-/

namespace CTFTime

/-- A calendar date, as produced by Python `datetime.date`.  Comparison of
Python dates is chronological, i.e. lexicographic on (year, month, day). -/
structure Date where
  year : Nat
  month : Nat
  day : Nat
deriving DecidableEq, Repr

/-- Gregorian leap-year rule used by Python `datetime`. -/
def isLeap (y : Nat) : Bool := (y % 4 == 0 && y % 100 != 0) || y % 400 == 0

def daysInMonth (y m : Nat) : Nat :=
  if m = 2 then (if isLeap y then 29 else 28)
  else if m = 4 ∨ m = 6 ∨ m = 9 ∨ m = 11 then 30
  else 31

/-- Models the Python constructor `datetime(year, month, day).date()`:
a `ValueError` (year out of `MINYEAR..MAXYEAR`, month out of `1..12`,
day out of range for the month) becomes `none`. -/
def mkDate (y m d : Nat) : Option Date :=
  if 1 ≤ y ∧ y ≤ 9999 ∧ 1 ≤ m ∧ m ≤ 12 ∧ 1 ≤ d ∧ d ≤ daysInMonth y m then
    some ⟨y, m, d⟩
  else none

/-- Strict chronological comparison of dates (Python `date.__lt__`). -/
def dateLt (a b : Date) : Bool :=
  decide (a.year < b.year) ||
    (decide (a.year = b.year) &&
      (decide (a.month < b.month) ||
        (decide (a.month = b.month) && decide (a.day < b.day))))

/-- Chronological `<=` on dates (Python `date.__le__`). -/
def dateLe (a b : Date) : Bool := dateLt a b || decide (a = b)

/-- The calendar day after `d` (month and year rollover included). -/
def nextDay (d : Date) : Date :=
  if d.day < daysInMonth d.year d.month then ⟨d.year, d.month, d.day + 1⟩
  else if d.month < 12 then ⟨d.year, d.month + 1, 1⟩
  else ⟨d.year + 1, 1, 1⟩

/-- `(now + timedelta(days=7)).date()`: adding exactly 7 days to a datetime
preserves the time of day, so at date granularity it advances 7 calendar
days. -/
def weekEnd (today : Date) : Date := nextDay^[7] today

/-- The scraped event record (class `CTFEvent` in the source). -/
structure CTFEvent where
  title : String
  start_time : String
  duration : String
  url : String
  format_type : String
deriving DecidableEq, Repr

def base_url : String := "https://ctftime.org"

def events_url : String := base_url ++ "/event/list/upcoming"

/-- ASCII fragment of Python whitespace (`str.isspace`, regex `\s`). -/
def isPySpace (c : Char) : Bool :=
  c == ' ' || c == '\t' || c == '\n' || c == '\x0d' || c == '\x0b' || c == '\x0c'

/-- Python `str.split(sep)` for a one-character separator, over char lists. -/
def splitChar (sep : Char) : List Char → List (List Char)
  | [] => [[]]
  | c :: rest =>
    if c = sep then [] :: splitChar sep rest
    else
      match splitChar sep rest with
      | [] => [[c]]
      | p :: ps => (c :: p) :: ps

/-- Python `str.strip()` (ASCII whitespace). -/
def pyStrip (s : String) : String :=
  String.mk (((s.toList.dropWhile isPySpace).reverse.dropWhile isPySpace).reverse)

/-- The em-dash separator used in the date cell (`"—"` in the source). -/
def emDash : Char := '—'

/-- Python `date_text.split("—")`. -/
def splitDash (s : String) : List String := (splitChar emDash s.toList).map String.mk

/-- Models the Python containment test `"—" in date_text`: a non-empty
separator occurs in `s` exactly when splitting on it yields more than one
part. -/
def hasSep (s : String) : Bool := (splitDash s).length != 1

/-- Lines 93-100 of the source: `duration = "Unknown"`, overwritten with
`f"{start_part} to {end_part}"` only when the em-dash occurs and splitting
on it yields exactly two parts. -/
def durationOf (date_text : String) : String :=
  if hasSep date_text then
    match splitDash date_text with
    | [start_part, end_part] => pyStrip start_part ++ " to " ++ pyStrip end_part
    | _ => "Unknown"
  else "Unknown"

/-- Line 103 of the source:
`date_text.split("—")[0].strip() if "—" in date_text else date_text`. -/
def startTimeOf (date_text : String) : String :=
  if hasSep date_text then pyStrip ((splitDash date_text).headD "")
  else date_text

/-- A hyperlink inside a table cell: visible text and the `href` attribute
(`None` when the attribute is absent; `title_link.get('href', '')` then
yields the empty string). -/
structure Link where
  text : String
  href : Option String
deriving DecidableEq, Repr

/-- A table cell: its text content and its first `<a>` descendant, if any
(`cell.find('a')`). -/
structure Cell where
  text : String
  link : Option Link
deriving DecidableEq, Repr

/-- A table row: its `<td>` cells in order. -/
structure Row where
  cells : List Cell
deriving DecidableEq, Repr

/-- The body of the per-row loop of `parse_events` (lines 69-110): a row
needs at least 4 cells and a hyperlink in the first cell, otherwise it is
skipped; a kept row yields one `CTFEvent`. -/
def parseRow (row : Row) : Option CTFEvent :=
  match row.cells with
  | c0 :: c1 :: c2 :: _ :: _ =>
    match c0.link with
    | none => none
    | some title_link =>
      let date_text := pyStrip c1.text
      some { title := pyStrip title_link.text
             start_time := startTimeOf date_text
             duration := durationOf date_text
             url := base_url ++ title_link.href.getD ""
             format_type := pyStrip c2.text }
  | _ => none

/-- The row loop of `parse_events`, accumulating events in row order. -/
def parse_events : List Row → List CTFEvent
  | [] => []
  | r :: rs =>
    match parseRow r with
    | some e => e :: parse_events rs
    | none => parse_events rs

/-- First hyperlink of the first cell of a row, if any. -/
def headLink (r : Row) : Option Link :=
  match r.cells with
  | [] => none
  | c :: _ => c.link

/-- Outcome of the one HTTP GET performed by `fetch_page`: either a response
(status and body) or a raised transport exception. -/
inductive HttpResult where
  | success (status : Nat) (body : String)
  | failure (error : String)
deriving DecidableEq, Repr

/-- Lines 39-51 of the source: body text on status 200, `""` on any other
status, `""` on any exception.  The function is total: no failure escapes. -/
def fetch_page : HttpResult → String
  | .success status body => if status == 200 then body else ""
  | .failure _ => ""

/-- One embed field of the Discord message: its `name` and `value` strings. -/
structure Field where
  name : String
  value : String
deriving DecidableEq, Repr

/-- `embed.add_field`: appends one field to the embed. -/
def add_field (fields : List Field) (f : Field) : List Field := fields ++ [f]

/-- The per-event field added by `send_ctf_notification` (lines 210-215). -/
def renderField (e : CTFEvent) : Field :=
  { name := "🎯 " ++ e.title
    value := "**Start:** " ++ e.start_time ++ "\n**Duration:** " ++ e.duration
      ++ "\n**Format:** " ++ e.format_type ++ "\n[Event Link](" ++ e.url ++ ")" }

/-- The overflow note added when more than 10 events exist (lines 217-222);
`k` is `len(events) - 10`. -/
def overflowNote (k : Nat) : Field :=
  { name := "📝 Note"
    value := "And " ++ toString k ++ " more CTFs! Check [CTFTime](" ++ events_url
      ++ ") for the full list." }

/-- The field list of the embed built by `send_ctf_notification`: one field
per event in `events[:10]`, then the overflow note when `len(events) > 10`. -/
def notification_fields (events : List CTFEvent) : List Field :=
  let fields := (events.take 10).foldl (fun acc e => add_field acc (renderField e)) []
  if events.length > 10 then add_field fields (overflowNote (events.length - 10))
  else fields

/-! ### The date-extraction regular expression

The filter extracts day, month token, optional year and a time token with
`re.search(r'(\d{1,2})\s+(\w+)\.?,?\s*(?:(\d{4}),?)?\s*(\d{1,2}:\d{2})', s)`.
The pattern is embedded stage by stage: each quantified atom becomes a
function returning its candidate continuations in Python's backtracking
priority order (greedy: longest consumption first; optional groups: matched
branch first), the stages are chained by `firstSome`, and `searchDate`
scans start positions left to right.  Character classes are the ASCII
fragments of `\d`, `\s` and `\w`. -/

/-- ASCII fragment of the regex class `\w`. -/
def isWordChar (c : Char) : Bool := c.isAlphanum || c == '_'

/-- First result of `f` over `l`, in order: the backtracking combinator. -/
def firstSome : List α → (α → Option β) → Option β
  | [], _ => none
  | a :: as, f =>
    match f a with
    | some b => some b
    | none => firstSome as f

/-- Candidate remainders after `p*`, longest consumption first. -/
def starCands (p : Char → Bool) : List Char → List (List Char)
  | [] => [[]]
  | c :: rest => if p c then starCands p rest ++ [c :: rest] else [c :: rest]

/-- Candidate remainders after `p+`, longest consumption first. -/
def plusCands (p : Char → Bool) : List Char → List (List Char)
  | [] => []
  | c :: rest => if p c then starCands p rest else []

/-- Candidate (capture, remainder) pairs for a capturing `p*`, longest first. -/
def starCapCands (p : Char → Bool) : List Char → List (List Char × List Char)
  | [] => [([], [])]
  | c :: rest =>
    if p c then (starCapCands p rest).map (fun pr => (c :: pr.1, pr.2)) ++ [([], c :: rest)]
    else [([], c :: rest)]

/-- Candidate (capture, remainder) pairs for a capturing `p+`, longest first. -/
def plusCapCands (p : Char → Bool) : List Char → List (List Char × List Char)
  | [] => []
  | c :: rest =>
    if p c then (starCapCands p rest).map (fun pr => (c :: pr.1, pr.2)) else []

/-- Group 1, `(\d{1,2})`: one or two digits, two first (greedy). -/
def dayCands : List Char → List (List Char × List Char)
  | [] => []
  | [a] => if a.isDigit then [([a], [])] else []
  | a :: b :: rest =>
    if a.isDigit then
      if b.isDigit then [([a, b], rest), ([a], b :: rest)] else [([a], b :: rest)]
    else []

/-- Group 2, `(\w+)`. -/
def wordCands (cs : List Char) : List (List Char × List Char) :=
  plusCapCands isWordChar cs

/-- An optional literal character (`\.?` or `,?`): consumed branch first. -/
def optCharCands (ch : Char) : List Char → List (List Char)
  | [] => [[]]
  | c :: rest => if c == ch then [rest, c :: rest] else [c :: rest]

/-- Group 3 inside `(?:(\d{4}),?)?`: the whole optional group, matched
branch first (greedy `?`), the trailing `,?` likewise. -/
def yearCands (cs : List Char) : List (Option (List Char) × List Char) :=
  (match cs with
   | a :: b :: c :: d :: r =>
     if a.isDigit && b.isDigit && c.isDigit && d.isDigit then
       match r with
       | ',' :: r2 => [(some [a, b, c, d], r2), (some [a, b, c, d], r)]
       | _ => [(some [a, b, c, d], r)]
     else []
   | _ => []) ++ [(none, cs)]

/-- Group 4 with a two-digit hour: `\d\d:\d\d`. -/
def time2 : List Char → Option (List Char × List Char)
  | a :: b :: ':' :: c :: d :: r =>
    if a.isDigit && b.isDigit && c.isDigit && d.isDigit then
      some ([a, b, ':', c, d], r)
    else none
  | _ => none

/-- Group 4 with a one-digit hour: `\d:\d\d`. -/
def time1 : List Char → Option (List Char × List Char)
  | a :: ':' :: c :: d :: r =>
    if a.isDigit && c.isDigit && d.isDigit then some ([a, ':', c, d], r) else none
  | _ => none

/-- Group 4, `(\d{1,2}:\d{2})`: greedy hour, so the two-digit form first. -/
def timeParse (cs : List Char) : Option (List Char × List Char) :=
  match time2 cs with
  | some x => some x
  | none => time1 cs

/-- The four captured groups of a successful match. -/
structure Groups where
  day : List Char
  month : List Char
  year : Option (List Char)
  time : List Char
deriving DecidableEq, Repr

/-- One anchored match attempt of the full pattern at the start of `cs`,
exploring candidates in Python's backtracking order. -/
def matchAt (cs : List Char) : Option Groups :=
  firstSome (dayCands cs) fun dc =>
  firstSome (plusCands isPySpace dc.2) fun r2 =>
  firstSome (wordCands r2) fun mc =>
  firstSome (optCharCands '.' mc.2) fun r4 =>
  firstSome (optCharCands ',' r4) fun r5 =>
  firstSome (starCands isPySpace r5) fun r6 =>
  firstSome (yearCands r6) fun yc =>
  firstSome (starCands isPySpace yc.2) fun r8 =>
  (timeParse r8).map fun tc => ⟨dc.1, mc.1, yc.1, tc.1⟩

/-- `re.search`: the match at the leftmost feasible start position. -/
def searchDate : List Char → Option Groups
  | [] => matchAt []
  | c :: rest =>
    match matchAt (c :: rest) with
    | some g => some g
    | none => searchDate rest

/-- Python `int` on a string of decimal digits. -/
def natOfDigits (cs : List Char) : Nat :=
  cs.foldl (fun n c => 10 * n + (c.toNat - 48)) 0

/-- The fixed month table of lines 136-139 of the source. -/
def month_names : List (String × Nat) :=
  [("Jan", 1), ("Feb", 2), ("Mar", 3), ("Apr", 4), ("May", 5), ("Jun", 6),
   ("Jul", 7), ("Aug", 8), ("Sep", 9), ("Oct", 10), ("Nov", 11), ("Dec", 12)]

/-- Line 141 of the source: `month_names.get(month_str[:3], 1)`. -/
def monthOf (month_str : String) : Nat :=
  (month_names.lookup (month_str.take 3)).getD 1

/-- Lines 131-152 of the source: run the pattern over the raw start text and
resolve an absolute date.  `none` captures every exclusion path: pattern
mismatch (the `if date_match` guard fails) and any `ValueError` from a
`datetime` constructor (caught by the surrounding `except`). -/
def resolveEventDate (today : Date) (s : String) : Option Date :=
  match searchDate s.toList with
  | none => none
  | some g =>
    let month := monthOf (String.mk g.month)
    let day := natOfDigits g.day
    match g.year with
    | some ys => mkDate (natOfDigits ys) month day
    | none =>
      match mkDate today.year month day with
      | none => none
      | some event_date_this_year =>
        mkDate (if dateLt event_date_this_year today then today.year + 1 else today.year)
          month day

/-- Lines 115-165 of the source: keep, in input order, the events whose
resolved start date lies in the closed window `[today, weekEnd today]`;
events whose date resolution fails are skipped. -/
def filter_upcoming_week_events (today : Date) : List CTFEvent → List CTFEvent
  | [] => []
  | e :: rest =>
    match resolveEventDate today e.start_time with
    | some event_date =>
      if dateLe today event_date && dateLe event_date (weekEnd today) then
        e :: filter_upcoming_week_events today rest
      else
        filter_upcoming_week_events today rest
    | none => filter_upcoming_week_events today rest

/-- The keep-test of the filter, as one Boolean. -/
def keepEvent (today : Date) (e : CTFEvent) : Bool :=
  (resolveEventDate today e.start_time).any
    (fun d => dateLe today d && dateLe d (weekEnd today))

/-- A four-character window of shape digit, ':', digit, digit at the head of
a character list.  Every occurrence of an "H:MM" or "HH:MM" time token
exhibits such a window (its last hour digit, the colon and the two minute
digits), and every such window is itself an "H:MM"-shaped token. -/
def hmmWindow : List Char → Bool
  | a :: b :: c :: d :: _ => a.isDigit && b == ':' && c.isDigit && d.isDigit
  | _ => false

/-- Whether the text contains an hour:minute-shaped token anywhere: some
suffix starts with digit, ':', digit, digit. -/
def hasHMM (cs : List Char) : Bool := cs.tails.any hmmWindow

/-! ### Helper lemmas -/

/-- The filter loop is `List.filter` of the keep-test. -/
theorem filter_eq_filter (today : Date) (l : List CTFEvent) :
    filter_upcoming_week_events today l = l.filter (keepEvent today) := by
  induction l with
  | nil => rfl
  | cons e rest ih =>
    cases h : resolveEventDate today e.start_time with
    | none =>
      simp [filter_upcoming_week_events, List.filter_cons, keepEvent, h, ih]
    | some d =>
      by_cases hd : (dateLe today d && dateLe d (weekEnd today)) = true
      · simp [filter_upcoming_week_events, List.filter_cons, keepEvent, h, hd, ih]
      · have hd2 : (dateLe today d && dateLe d (weekEnd today)) = false := by
          simpa using hd
        simp [filter_upcoming_week_events, List.filter_cons, keepEvent, h, hd2, ih]

/-- The row loop is `List.filterMap` of the per-row parser. -/
theorem parse_events_eq (rows : List Row) :
    parse_events rows = rows.filterMap parseRow := by
  induction rows with
  | nil => rfl
  | cons r rs ih =>
    cases h : parseRow r with
    | none => simp [parse_events, List.filterMap_cons, h, ih]
    | some e => simp [parse_events, List.filterMap_cons, h, ih]

/-- Splitting never produces the empty list of parts. -/
theorem splitChar_ne_nil (sep : Char) (cs : List Char) : splitChar sep cs ≠ [] := by
  induction cs with
  | nil => simp [splitChar]
  | cons c rest ih =>
    simp only [splitChar]
    split
    · simp
    · cases h : splitChar sep rest with
      | nil => exact absurd h ih
      | cons p ps => simp

theorem sep_case_one (s : String) (h : (splitDash s).length = 1) :
    durationOf s = "Unknown" ∧ startTimeOf s = s := by
  have hsep : hasSep s = false := by simp [hasSep, h]
  exact ⟨by simp [durationOf, hsep], by simp [startTimeOf, hsep]⟩

theorem sep_case_two (s : String) (a b : String) (h : splitDash s = [a, b]) :
    durationOf s = pyStrip a ++ " to " ++ pyStrip b ∧ startTimeOf s = pyStrip a := by
  have hsep : hasSep s = true := by simp [hasSep, h]
  exact ⟨by simp [durationOf, hsep, h], by simp [startTimeOf, hsep, h]⟩

theorem sep_case_many (s : String) (h : 2 < (splitDash s).length) :
    durationOf s = "Unknown" ∧ startTimeOf s = pyStrip ((splitDash s).headD "") := by
  rcases hsplit : splitDash s with _ | ⟨a, _ | ⟨b, _ | ⟨c, r⟩⟩⟩ <;>
    rw [hsplit] at h <;> simp at h
  have hsep : hasSep s = true := by simp [hasSep, hsplit]
  exact ⟨by simp [durationOf, hsep, hsplit], by simp [startTimeOf, hsep, hsplit]⟩

/-! ### The claims -/

/-- Claim C2: for every input list and every fixed today, the filter returns
exactly the events whose resolved start date lies in the closed window
`[today, today + 7 days]` (both endpoints included), and the output is an
order-preserving subsequence of the input. -/
theorem c2_window_filter (today : Date) (events : List CTFEvent) :
    filter_upcoming_week_events today events = events.filter (keepEvent today)
    ∧ (filter_upcoming_week_events today events).Sublist events := by
  refine ⟨filter_eq_filter today events, ?_⟩
  rw [filter_eq_filter]
  exact List.filter_sublist events

/-- Claim C3: the month lookup consults only the first 3 characters of the
matched token, case-sensitively against the fixed 12-entry table, and every
token whose first 3 characters are not exactly one of the 12 abbreviations
maps to month 1. -/
theorem c3_month_lookup :
    (∀ s t : String, s.take 3 = t.take 3 → monthOf s = monthOf t)
    ∧ (∀ s : String, (∀ p ∈ month_names, p.1 ≠ s.take 3) → monthOf s = 1) := by
  constructor
  · intro s t h
    simp [monthOf, h]
  · intro s h
    have h1 : ("Jan" : String) ≠ s.take 3 := h ("Jan", 1) (by simp [month_names])
    have h2 : ("Feb" : String) ≠ s.take 3 := h ("Feb", 2) (by simp [month_names])
    have h3 : ("Mar" : String) ≠ s.take 3 := h ("Mar", 3) (by simp [month_names])
    have h4 : ("Apr" : String) ≠ s.take 3 := h ("Apr", 4) (by simp [month_names])
    have h5 : ("May" : String) ≠ s.take 3 := h ("May", 5) (by simp [month_names])
    have h6 : ("Jun" : String) ≠ s.take 3 := h ("Jun", 6) (by simp [month_names])
    have h7 : ("Jul" : String) ≠ s.take 3 := h ("Jul", 7) (by simp [month_names])
    have h8 : ("Aug" : String) ≠ s.take 3 := h ("Aug", 8) (by simp [month_names])
    have h9 : ("Sep" : String) ≠ s.take 3 := h ("Sep", 9) (by simp [month_names])
    have h10 : ("Oct" : String) ≠ s.take 3 := h ("Oct", 10) (by simp [month_names])
    have h11 : ("Nov" : String) ≠ s.take 3 := h ("Nov", 11) (by simp [month_names])
    have h12 : ("Dec" : String) ≠ s.take 3 := h ("Dec", 12) (by simp [month_names])
    have b1 : (s.take 3 == "Jan") = false := beq_eq_false_iff_ne.mpr (Ne.symm h1)
    have b2 : (s.take 3 == "Feb") = false := beq_eq_false_iff_ne.mpr (Ne.symm h2)
    have b3 : (s.take 3 == "Mar") = false := beq_eq_false_iff_ne.mpr (Ne.symm h3)
    have b4 : (s.take 3 == "Apr") = false := beq_eq_false_iff_ne.mpr (Ne.symm h4)
    have b5 : (s.take 3 == "May") = false := beq_eq_false_iff_ne.mpr (Ne.symm h5)
    have b6 : (s.take 3 == "Jun") = false := beq_eq_false_iff_ne.mpr (Ne.symm h6)
    have b7 : (s.take 3 == "Jul") = false := beq_eq_false_iff_ne.mpr (Ne.symm h7)
    have b8 : (s.take 3 == "Aug") = false := beq_eq_false_iff_ne.mpr (Ne.symm h8)
    have b9 : (s.take 3 == "Sep") = false := beq_eq_false_iff_ne.mpr (Ne.symm h9)
    have b10 : (s.take 3 == "Oct") = false := beq_eq_false_iff_ne.mpr (Ne.symm h10)
    have b11 : (s.take 3 == "Nov") = false := beq_eq_false_iff_ne.mpr (Ne.symm h11)
    have b12 : (s.take 3 == "Dec") = false := beq_eq_false_iff_ne.mpr (Ne.symm h12)
    simp [monthOf, month_names, List.lookup, b1, b2, b3, b4, b5, b6, b7, b8, b9,
      b10, b11, b12]

/-- Witness for C3 at concrete tokens: a longer token agrees with its 3-prefix,
and a case-mismatched token falls through to January. -/
theorem c3_witness : monthOf "August" = monthOf "Aug" ∧ monthOf "AUG" = 1 :=
  ⟨c3_month_lookup.1 "August" "Aug" (by decide), c3_month_lookup.2 "AUG" (by decide)⟩

/-- Claim C4: a row with at least 4 cells and a hyperlink in its first cell
yields exactly one event whose url is the origin concatenated with the href;
a row with fewer than 4 cells or no hyperlink yields none; skipped rows do
not affect the others; row order is preserved (the loop is a `filterMap`). -/
theorem c4_parse_rows (rows : List Row) :
    parse_events rows = rows.filterMap parseRow
    ∧ (∀ (c0 c1 c2 c3 : Cell) (cs : List Cell) (l : Link), c0.link = some l →
        parseRow ⟨c0 :: c1 :: c2 :: c3 :: cs⟩
          = some { title := pyStrip l.text
                   start_time := startTimeOf (pyStrip c1.text)
                   duration := durationOf (pyStrip c1.text)
                   url := base_url ++ l.href.getD ""
                   format_type := pyStrip c2.text })
    ∧ (∀ r : Row, r.cells.length < 4 ∨ headLink r = none → parseRow r = none)
    ∧ (∀ (xs ys : List Row) (r : Row), parseRow r = none →
        parse_events (xs ++ r :: ys) = parse_events (xs ++ ys)) := by
  refine ⟨parse_events_eq rows, ?_, ?_, ?_⟩
  · intro c0 c1 c2 c3 cs l hl
    simp [parseRow, hl]
  · intro r hr
    rcases r with ⟨cells⟩
    rcases cells with _ | ⟨c0, _ | ⟨c1, _ | ⟨c2, _ | ⟨c3, rest⟩⟩⟩⟩ <;>
      simp only [parseRow]
    rcases hr with hlen | hlink
    · simp at hlen
      omega
    · simp only [headLink] at hlink
      simp [hlink]
  · intro xs ys r hr
    rw [parse_events_eq, parse_events_eq]
    simp [List.filterMap_append, List.filterMap_cons, hr]

/-- Witness for C4 at a concrete pair of rows: one valid row produces its
event, one short row produces nothing. -/
theorem c4_witness :
    parseRow ⟨[⟨"DEF CON", some ⟨" DEF CON ", some "/event/1"⟩⟩,
               ⟨" 1 — 2 ", none⟩, ⟨" Online ", none⟩, ⟨"World", none⟩]⟩
      = some { title := "DEF CON", start_time := "1", duration := "1 to 2",
               url := "https://ctftime.org/event/1", format_type := "Online" }
    ∧ parseRow ⟨[⟨"short", none⟩]⟩ = none := by
  constructor
  · have h := (c4_parse_rows []).2.1 ⟨"DEF CON", some ⟨" DEF CON ", some "/event/1"⟩⟩
      ⟨" 1 — 2 ", none⟩ ⟨" Online ", none⟩ ⟨"World", none⟩ []
      ⟨" DEF CON ", some "/event/1"⟩ rfl
    exact h.trans (by decide)
  · exact (c4_parse_rows []).2.2.1 ⟨[⟨"short", none⟩]⟩ (Or.inl (by decide))

/-- Counterexample to claim C5 as stated: the text "a — b — c" contains the
em-dash separator, yet the event duration is "Unknown" rather than the
rendered "<start> to <end>" the claim requires for every separator-containing
text (its start text is still the first component, stripped). -/
theorem c5_counterexample :
    hasSep "a — b — c" = true ∧ durationOf "a — b — c" = "Unknown"
      ∧ startTimeOf "a — b — c" = "a" := by decide

/-- Claim C5 (amended): if splitting on the em-dash yields exactly two
components, the duration renders as "<start> to <end>" and the start text is
the first component, each stripped; if it yields more than two components
(two or more separators), the duration is "Unknown" while the start text is
still the stripped first component; if the separator is absent the start
text is the full input string and the duration is "Unknown". -/
theorem c5_amended (s : String) :
    ((splitDash s).length = 1 → durationOf s = "Unknown" ∧ startTimeOf s = s)
    ∧ (∀ a b : String, splitDash s = [a, b] →
        durationOf s = pyStrip a ++ " to " ++ pyStrip b ∧ startTimeOf s = pyStrip a)
    ∧ (2 < (splitDash s).length →
        durationOf s = "Unknown" ∧ startTimeOf s = pyStrip ((splitDash s).headD "")) :=
  ⟨sep_case_one s, fun a b h => sep_case_two s a b h, sep_case_many s⟩

/-- Witness for C5 (amended) at concrete inputs for the two-part and the
separator-absent branches. -/
theorem c5_witness :
    splitDash "x — y" = ["x ", " y"] ∧ durationOf "x — y" = "x to y"
      ∧ startTimeOf "x — y" = "x"
      ∧ durationOf "no dash" = "Unknown" ∧ startTimeOf "no dash" = "no dash" := by
  have hs : splitDash "x — y" = ["x ", " y"] := by decide
  have h := (c5_amended "x — y").2.1 "x " " y" hs
  have h2 := (c5_amended "no dash").1 (by decide)
  exact ⟨hs, h.1.trans (by decide), h.2.trans (by decide), h2.1, h2.2⟩

/-- Claim C6: fetch_page never raises past its boundary; it is a total
function returning the body exactly on status 200 and the empty string in
every other case (non-200 status or transport failure). -/
theorem c6_fetch_total (r : HttpResult) :
    (∃ body, r = .success 200 body ∧ fetch_page r = body) ∨ fetch_page r = "" := by
  cases r with
  | success status body =>
    by_cases h : status = 200
    · subst h
      exact Or.inl ⟨body, rfl, by simp [fetch_page]⟩
    · right
      simp [fetch_page, h]
  | failure e => right; rfl

/-- Claim C9: when the em-dash occurs two or more times (splitting yields
more than two parts) the duration is "Unknown" while the start text is still
the component before the first separator: the separator-present rule for the
duration and the one for the start text disagree. -/
theorem c9_multi_separator (s : String) (h : 2 < (splitDash s).length) :
    durationOf s = "Unknown" ∧ startTimeOf s = pyStrip ((splitDash s).headD "") :=
  sep_case_many s h

/-- Witness for C9 at the concrete text "20 Aug — 21 Aug — 22 Aug". -/
theorem c9_witness :
    2 < (splitDash "20 Aug — 21 Aug — 22 Aug").length
    ∧ durationOf "20 Aug — 21 Aug — 22 Aug" = "Unknown"
    ∧ startTimeOf "20 Aug — 21 Aug — 22 Aug" = "20 Aug" := by
  have h2 : 2 < (splitDash "20 Aug — 21 Aug — 22 Aug").length := by decide
  have h := c9_multi_separator "20 Aug — 21 Aug — 22 Aug" h2
  exact ⟨h2, h.1, h.2.trans (by decide)⟩

/-- Claim C8: the rendered message carries one field per event for the first
`min(n, 10)` events in order, and exactly when `n > 10` one extra overflow
note stating `n - 10` more. -/
theorem c8_notification_cap (events : List CTFEvent) :
    notification_fields events
      = (events.take 10).map renderField
        ++ (if 10 < events.length then [overflowNote (events.length - 10)] else []) := by
  have hfold : ∀ (l : List CTFEvent) (acc : List Field),
      l.foldl (fun acc e => add_field acc (renderField e)) acc = acc ++ l.map renderField := by
    intro l
    induction l with
    | nil => intro acc; simp
    | cons e es ih =>
      intro acc
      rw [List.foldl_cons, ih]
      simp [add_field]
  simp only [notification_fields]
  by_cases h : events.length > 10
  · rw [if_pos h, hfold]
    simp [add_field, h]
  · rw [if_neg h, hfold]
    simp [h]

/-- Claim C1: when the pattern matches but no 4-digit year is captured, the
filter builds a candidate date from the current year and the parsed month
and day; a candidate strictly before today resolves to current year + 1,
otherwise to the current year.  In particular, with today = 2025-08-15,
"20 Aug., 10:00 UTC" resolves to 2025-08-20 and "5 Jan., 10:00 UTC" to
2026-01-05. -/
theorem c1_year_resolution :
    (∀ (today : Date) (s : String) (g : Groups) (cand : Date),
        searchDate s.toList = some g → g.year = none →
        mkDate today.year (monthOf (String.mk g.month)) (natOfDigits g.day) = some cand →
        resolveEventDate today s
          = mkDate (if dateLt cand today then today.year + 1 else today.year)
              (monthOf (String.mk g.month)) (natOfDigits g.day))
    ∧ resolveEventDate ⟨2025, 8, 15⟩ "20 Aug., 10:00 UTC" = some ⟨2025, 8, 20⟩
    ∧ resolveEventDate ⟨2025, 8, 15⟩ "5 Jan., 10:00 UTC" = some ⟨2026, 1, 5⟩ := by
  refine ⟨?_, by decide, by decide⟩
  intro today s g cand hs hy hc
  have hs2 : searchDate s.data = some g := hs
  simp [resolveEventDate, hs2, hy, hc]

/-- Witness for C1 at today = 2025-08-15 with the yearless text
"20 Aug., 10:00 UTC". -/
theorem c1_witness :
    searchDate (String.toList "20 Aug., 10:00 UTC")
      = some ⟨['2', '0'], ['A', 'u', 'g'], none, ['1', '0', ':', '0', '0']⟩
    ∧ resolveEventDate ⟨2025, 8, 15⟩ "20 Aug., 10:00 UTC" = some ⟨2025, 8, 20⟩ := by
  have h := c1_year_resolution.1 ⟨2025, 8, 15⟩ "20 Aug., 10:00 UTC"
    ⟨['2', '0'], ['A', 'u', 'g'], none, ['1', '0', ':', '0', '0']⟩ ⟨2025, 8, 20⟩
    (by decide) rfl (by decide)
  exact ⟨by decide, h.trans (by decide)⟩

/-- Claim C7: an event whose raw start text fails date resolution (pattern
mismatch or invalid calendar date) is excluded, the filter never raises past
its boundary (it is a total function), and the failure does not affect
whether the other events of the batch are retained. -/
theorem c7_parse_failure_isolated (today : Date) (e : CTFEvent)
    (h : resolveEventDate today e.start_time = none) :
    filter_upcoming_week_events today [e] = []
    ∧ ∀ xs ys, filter_upcoming_week_events today (xs ++ e :: ys)
        = filter_upcoming_week_events today (xs ++ ys) := by
  have hk : keepEvent today e = false := by simp [keepEvent, h]
  constructor
  · simp [filter_eq_filter, List.filter_cons, hk]
  · intro xs ys
    simp [filter_eq_filter, List.filter_append, List.filter_cons, hk]

/-- Witness for C7: the unparseable text "TBA, soon" is excluded and leaves
its neighbours untouched. -/
theorem c7_witness :
    resolveEventDate ⟨2025, 8, 15⟩ "TBA, soon" = none
    ∧ filter_upcoming_week_events ⟨2025, 8, 15⟩
        [⟨"A", "20 Aug., 10:00 UTC", "", "", ""⟩,
         ⟨"Bad", "TBA, soon", "", "", ""⟩,
         ⟨"C", "21 Aug., 9:00 UTC", "", "", ""⟩]
      = [⟨"A", "20 Aug., 10:00 UTC", "", "", ""⟩,
         ⟨"C", "21 Aug., 9:00 UTC", "", "", ""⟩] := by
  have hn : resolveEventDate ⟨2025, 8, 15⟩ "TBA, soon" = none := by decide
  have h := (c7_parse_failure_isolated ⟨2025, 8, 15⟩ ⟨"Bad", "TBA, soon", "", "", ""⟩ hn).2
    [⟨"A", "20 Aug., 10:00 UTC", "", "", ""⟩] [⟨"C", "21 Aug., 9:00 UTC", "", "", ""⟩]
  exact ⟨hn, h.trans (by decide)⟩

/-! ### The time token is mandatory: lemmas about the matcher -/

theorem firstSome_eq_some {α β : Type} : ∀ {l : List α} {f : α → Option β} {b : β},
    firstSome l f = some b → ∃ a ∈ l, f a = some b := by
  intro l
  induction l with
  | nil => intro f b h; simp [firstSome] at h
  | cons a as ih =>
    intro f b h
    simp only [firstSome] at h
    split at h
    · next heq => exact ⟨a, List.mem_cons_self a as, heq.trans h⟩
    · next heq => obtain ⟨x, hx, hfx⟩ := ih h; exact ⟨x, List.mem_cons_of_mem a hx, hfx⟩

theorem starCands_suffix {p : Char → Bool} : ∀ {cs r : List Char},
    r ∈ starCands p cs → r <:+ cs := by
  intro cs
  induction cs with
  | nil =>
    intro r hr
    simp [starCands] at hr
    simp [hr]
  | cons c rest ih =>
    intro r hr
    simp only [starCands] at hr
    split at hr
    · rcases List.mem_append.mp hr with h1 | h1
      · exact (ih h1).trans (List.suffix_cons c rest)
      · simp at h1
        subst h1
        exact List.suffix_refl _
    · simp at hr
      subst hr
      exact List.suffix_refl _

theorem plusCands_suffix {p : Char → Bool} {cs r : List Char}
    (h : r ∈ plusCands p cs) : r <:+ cs := by
  cases cs with
  | nil => simp [plusCands] at h
  | cons c rest =>
    simp only [plusCands] at h
    split at h
    · exact (starCands_suffix h).trans (List.suffix_cons c rest)
    · simp at h

theorem starCapCands_suffix {p : Char → Bool} : ∀ {cs : List Char}
    {pr : List Char × List Char}, pr ∈ starCapCands p cs → pr.2 <:+ cs := by
  intro cs
  induction cs with
  | nil =>
    intro pr hpr
    simp [starCapCands] at hpr
    simp [hpr]
  | cons c rest ih =>
    intro pr hpr
    simp only [starCapCands] at hpr
    split at hpr
    · rcases List.mem_append.mp hpr with h1 | h1
      · obtain ⟨q, hq, hq2⟩ := List.mem_map.mp h1
        rw [← hq2]
        exact (ih hq).trans (List.suffix_cons c rest)
      · simp at h1
        subst h1
        exact List.suffix_refl _
    · simp at hpr
      subst hpr
      exact List.suffix_refl _

theorem wordCands_suffix {cs : List Char} {pr : List Char × List Char}
    (h : pr ∈ wordCands cs) : pr.2 <:+ cs := by
  cases cs with
  | nil => simp [wordCands, plusCapCands] at h
  | cons c rest =>
    simp only [wordCands, plusCapCands] at h
    split at h
    · obtain ⟨q, hq, hq2⟩ := List.mem_map.mp h
      rw [← hq2]
      exact (starCapCands_suffix hq).trans (List.suffix_cons c rest)
    · simp at h

theorem dayCands_suffix {cs : List Char} {pr : List Char × List Char}
    (h : pr ∈ dayCands cs) : pr.2 <:+ cs := by
  match cs with
  | [] => simp [dayCands] at h
  | [a] =>
    simp only [dayCands] at h
    split at h
    · simp at h
      subst h
      exact ⟨[a], rfl⟩
    · simp at h
  | a :: b :: rest =>
    simp only [dayCands] at h
    split at h
    · split at h
      · simp at h
        rcases h with h | h <;> subst h
        · exact ⟨[a, b], rfl⟩
        · exact ⟨[a], rfl⟩
      · simp at h
        subst h
        exact ⟨[a], rfl⟩
    · simp at h

theorem optCharCands_suffix {ch : Char} {cs r : List Char}
    (h : r ∈ optCharCands ch cs) : r <:+ cs := by
  cases cs with
  | nil =>
    simp [optCharCands] at h
    simp [h]
  | cons c rest =>
    simp only [optCharCands] at h
    split at h
    · simp at h
      rcases h with h | h <;> subst h
      · exact ⟨[c], rfl⟩
      · exact List.suffix_refl _
    · simp at h
      subst h
      exact List.suffix_refl _

theorem yearCands_suffix {cs : List Char} {pr : Option (List Char) × List Char}
    (h : pr ∈ yearCands cs) : pr.2 <:+ cs := by
  simp only [yearCands] at h
  rcases List.mem_append.mp h with h1 | h1
  · split at h1
    · next a b c d r =>
      split at h1
      · split at h1
        · simp at h1
          rcases h1 with h1 | h1 <;> subst h1
          · exact ⟨[a, b, c, d, ','], rfl⟩
          · exact ⟨[a, b, c, d], rfl⟩
        · simp at h1
          subst h1
          exact ⟨[a, b, c, d], rfl⟩
      · simp at h1
    · simp at h1
  · simp at h1
    subst h1
    exact List.suffix_refl _

theorem hasHMM_of_suffix {r cs : List Char} (hsuf : r <:+ cs)
    (h : hasHMM r = true) : hasHMM cs = true := by
  simp only [hasHMM, List.any_eq_true] at h ⊢
  obtain ⟨t, ht, hw⟩ := h
  exact ⟨t, (List.mem_tails _ _).mpr (((List.mem_tails _ _).mp ht).trans hsuf), hw⟩

theorem time2_hasHMM {cs : List Char} {x : List Char × List Char}
    (h : time2 cs = some x) : hasHMM cs = true := by
  rw [time2.eq_def] at h
  split at h
  · next a b c d r =>
    split at h
    · next hdig =>
      simp only [Bool.and_eq_true] at hdig
      obtain ⟨⟨⟨ha, hb⟩, hc⟩, hd⟩ := hdig
      simp only [hasHMM, List.any_eq_true]
      refine ⟨b :: ':' :: c :: d :: r, (List.mem_tails _ _).mpr ⟨[a], rfl⟩, ?_⟩
      simp [hmmWindow, hb, hc, hd]
    · exact absurd h (by simp)
  · exact absurd h (by simp)

theorem time1_hasHMM {cs : List Char} {x : List Char × List Char}
    (h : time1 cs = some x) : hasHMM cs = true := by
  rw [time1.eq_def] at h
  split at h
  · next a c d r =>
    split at h
    · next hdig =>
      simp only [Bool.and_eq_true] at hdig
      obtain ⟨⟨ha, hc⟩, hd⟩ := hdig
      simp only [hasHMM, List.any_eq_true]
      refine ⟨a :: ':' :: c :: d :: r, (List.mem_tails _ _).mpr ⟨[], rfl⟩, ?_⟩
      simp [hmmWindow, ha, hc, hd]
    · exact absurd h (by simp)
  · exact absurd h (by simp)

theorem timeParse_hasHMM {cs : List Char} {x : List Char × List Char}
    (h : timeParse cs = some x) : hasHMM cs = true := by
  simp only [timeParse] at h
  split at h
  · next heq => exact time2_hasHMM (heq.trans h)
  · exact time1_hasHMM h

theorem matchAt_hasHMM {cs : List Char} {g : Groups}
    (h : matchAt cs = some g) : hasHMM cs = true := by
  simp only [matchAt] at h
  obtain ⟨dc, hdc, h⟩ := firstSome_eq_some h
  obtain ⟨r2, hr2, h⟩ := firstSome_eq_some h
  obtain ⟨mc, hmc, h⟩ := firstSome_eq_some h
  obtain ⟨r4, hr4, h⟩ := firstSome_eq_some h
  obtain ⟨r5, hr5, h⟩ := firstSome_eq_some h
  obtain ⟨r6, hr6, h⟩ := firstSome_eq_some h
  obtain ⟨yc, hyc, h⟩ := firstSome_eq_some h
  obtain ⟨r8, hr8, h⟩ := firstSome_eq_some h
  obtain ⟨tc, htc, _⟩ := Option.map_eq_some'.mp h
  have hsuf : r8 <:+ cs :=
    (((((((starCands_suffix hr8).trans (yearCands_suffix hyc)).trans
      (starCands_suffix hr6)).trans (optCharCands_suffix hr5)).trans
      (optCharCands_suffix hr4)).trans (wordCands_suffix hmc)).trans
      (plusCands_suffix hr2)).trans (dayCands_suffix hdc)
  exact hasHMM_of_suffix hsuf (timeParse_hasHMM htc)

theorem searchDate_hasHMM : ∀ {cs : List Char} {g : Groups},
    searchDate cs = some g → hasHMM cs = true := by
  intro cs
  induction cs with
  | nil =>
    intro g h
    have hm : matchAt [] = none := rfl
    simp [searchDate, hm] at h
  | cons c rest ih =>
    intro g h
    simp only [searchDate] at h
    split at h
    · next heq => exact matchAt_hasHMM heq
    · exact hasHMM_of_suffix (List.suffix_cons c rest) (ih h)

/-- Claim C10: the extraction pattern makes the hour:minute token mandatory;
a start text with no digit-colon-digit-digit window anywhere is never
resolved, so its event is excluded regardless of its date and the rest of
the batch is unchanged. -/
theorem c10_time_token_mandatory (today : Date) (e : CTFEvent)
    (h : hasHMM e.start_time.toList = false) :
    resolveEventDate today e.start_time = none
    ∧ ∀ xs ys, filter_upcoming_week_events today (xs ++ e :: ys)
        = filter_upcoming_week_events today (xs ++ ys) := by
  have hn : searchDate e.start_time.toList = none := by
    cases hs : searchDate e.start_time.toList with
    | none => rfl
    | some g => rw [searchDate_hasHMM hs] at h; exact absurd h (by simp)
  have hn2 : searchDate e.start_time.data = none := hn
  have hr : resolveEventDate today e.start_time = none := by
    simp [resolveEventDate, hn2]
  have hk : keepEvent today e = false := by simp [keepEvent, hr]
  refine ⟨hr, ?_⟩
  intro xs ys
  simp [filter_eq_filter, List.filter_append, List.filter_cons, hk]

/-- Witness for C10: "20 Aug. 2025" is a valid in-window date for
today = 2025-08-15 but carries no time token, so its event is dropped. -/
theorem c10_witness :
    hasHMM (String.toList "20 Aug. 2025") = false
    ∧ filter_upcoming_week_events ⟨2025, 8, 15⟩
        [⟨"T", "20 Aug. 2025", "Unknown", "u", "Online"⟩] = [] := by
  have h : hasHMM (String.toList "20 Aug. 2025") = false := by decide
  have h2 := (c10_time_token_mandatory ⟨2025, 8, 15⟩
    ⟨"T", "20 Aug. 2025", "Unknown", "u", "Online"⟩ h).2 [] []
  exact ⟨h, by simpa using h2⟩

end CTFTime
